import Mathlib

/-
Verification of the Earlessly audio-engine core against its specification.

Shallow embedding of the relevant source functions:
  - src/components/Metronome.tsx : gcd, lcm, the polyrhythm grid generator,
    and the speed-trainer effect;
  - src/utils/audioEngine.ts : autoCorrelate, MetronomeEngine.scheduleNote /
    nextNote (tone-selection and step-advance logic), PolySynth.play / stop /
    stopAll (active-voice map), NOTE_STRINGS, getNoteFromFrequency, and the
    midi-to-frequency conversion used by PolySynth.play.

Conventions of the embedding:
  - JavaScript numbers are modelled exactly: integer-valued state as Nat/Int,
    sample values and thresholds as rationals, and the transcendental
    frequency/log computations over the reals.  Web-audio node objects
    (oscillators, gain nodes) are modelled as emitted commands; the scheduling
    times of the audio clock do not affect any claim below.
  - JS `%` on integers is truncated remainder, Int.tmod; `Math.floor` is
    Int.floor; `Math.round x` is `Int.floor (x + 1/2)`.
  - The recursion in `gcd` strictly decreases its second argument, so it is
    written with an explicit fuel equal to that argument, which bounds the
    number of iterations; this keeps the definition kernel-reducible.
  - `autoCorrelate` compares `rms = sqrt (s / n)` with 0.01 only; since both
    sides are nonnegative this comparison is performed on squares
    (`s / n < 0.0001`), which keeps the function inside ℚ.
-/

set_option maxRecDepth 100000

namespace Earlessly

/-- BeatIntensity enum from src/types.ts (MUTE .. POLY_BOTH). -/
inductive BeatIntensity where
  | MUTE
  | WEAK
  | STRONG
  | POLY_A
  | POLY_B
  | POLY_BOTH
deriving DecidableEq

/-- NoteName enum from src/types.ts. -/
inductive NoteName where
  | C
  | CSharp
  | D
  | DSharp
  | E
  | F
  | FSharp
  | G
  | GSharp
  | A
  | ASharp
  | B
deriving DecidableEq

/-- Fuel-indexed helper for `gcd`; the fuel bounds the strictly decreasing
second argument of the source recursion `gcd(a, b) = b === 0 ? a : gcd(b, a % b)`. -/
def gcdFuel : ℕ → ℕ → ℕ → ℕ
  | 0, a, _ => a
  | _ + 1, a, 0 => a
  | fuel + 1, a, b => gcdFuel fuel b (a % b)

/-- gcd from src/components/Metronome.tsx line 155:
`const gcd = (a, b) => b === 0 ? a : gcd(b, a % b)`. -/
def gcd (a b : ℕ) : ℕ := gcdFuel b a b

/-- lcm from src/components/Metronome.tsx lines 156-159:
`if (a === 0 || b === 0) return 0; return Math.abs(a * b) / gcd(a, b)`
(the abs is the identity on naturals). -/
def lcm (a b : ℕ) : ℕ := if a = 0 ∨ b = 0 then 0 else a * b / gcd a b

/-- Polyrhythm branch of the grid-generating useEffect in
src/components/Metronome.tsx (lines 218-234): inputs are clamped with
`Math.max(1, ·)`, the grid has length `lcm(stepsA, stepsB)`, and index `i`
is classified from `i % (totalSteps / stepsA) === 0` and
`i % (totalSteps / stepsB) === 0`.  The divisions are exact because each
clamped step count divides the lcm, so Nat division coincides with the
source's float division.  (The source's `if (totalSteps === 0) return;`
guard is unreachable after clamping and is omitted.) -/
def polyGrid (polyA polyB : ℕ) : List BeatIntensity :=
  let stepsA := max 1 polyA
  let stepsB := max 1 polyB
  let totalSteps := lcm stepsA stepsB
  let stepIntervalA := totalSteps / stepsA
  let stepIntervalB := totalSteps / stepsB
  (List.range totalSteps).map fun i =>
    let hitA := i % stepIntervalA = 0
    let hitB := i % stepIntervalB = 0
    if hitA ∧ hitB then BeatIntensity.POLY_BOTH
    else if hitA then BeatIntensity.POLY_A
    else if hitB then BeatIntensity.POLY_B
    else BeatIntensity.MUTE

/-- Transcription of the specification's classification sentence (spec.md
section 4.2), used to compare the spec's wording with `polyGrid`: index `i`
is POLY_BOTH if `i mod (L/stepsA) == 0` and `i mod (L/stepsB) == 0`, POLY_A
if only the first holds, POLY_B if only the second, else MUTE. -/
def specPolyClassify (a b : ℕ) (i : ℕ) : BeatIntensity :=
  let L := lcm a b
  if i % (L / a) = 0 ∧ i % (L / b) = 0 then BeatIntensity.POLY_BOTH
  else if i % (L / a) = 0 then BeatIntensity.POLY_A
  else if i % (L / b) = 0 then BeatIntensity.POLY_B
  else BeatIntensity.MUTE

/-- Number of grid indices tagged POLY_A or POLY_BOTH. -/
def countAOrBoth (g : List BeatIntensity) : ℕ :=
  (g.filter fun x => x == BeatIntensity.POLY_A || x == BeatIntensity.POLY_BOTH).length

/-- Number of grid indices tagged POLY_B or POLY_BOTH. -/
def countBOrBoth (g : List BeatIntensity) : ℕ :=
  (g.filter fun x => x == BeatIntensity.POLY_B || x == BeatIntensity.POLY_BOTH).length

namespace MetronomeEngine

/-- Tone-selection logic of MetronomeEngine.scheduleNote
(src/utils/audioEngine.ts lines 172-211): reading `this.grid[beatNumber]`
yields `none` (JS `undefined`) past the end of the grid; the early return
fires only when the intensity is strictly equal to MUTE or the engine is
stopped; otherwise the switch selects the oscillator frequencies and gain,
with `default: freqs = [800]` (gain left at 0.4) for any other value,
including `undefined`.  The result is the list of oscillator frequencies
and the gain of the scheduled click (`([], 0)` when the early return fires
and no oscillator is created). -/
def scheduleNoteTones (grid : List BeatIntensity) (beatNumber : ℕ) (isPlaying : Bool) :
    List ℕ × ℚ :=
  let intensity := grid.get? beatNumber
  if intensity = some BeatIntensity.MUTE ∨ isPlaying = false then ([], 0)
  else
    match intensity with
    | some BeatIntensity.STRONG => ([1500], 1)
    | some BeatIntensity.WEAK => ([800], 2/5)
    | some BeatIntensity.POLY_A => ([600], 3/5)
    | some BeatIntensity.POLY_B => ([1200], 3/5)
    | some BeatIntensity.POLY_BOTH => ([600, 1200], 4/5)
    | _ => ([800], 2/5)

/-- Step advance of MetronomeEngine.nextNote (src/utils/audioEngine.ts
lines 164-170): `currentStep++` then reset to 0 when it reaches
`grid.length`. -/
def nextStepIndex (grid : List BeatIntensity) (cur : ℕ) : ℕ :=
  if cur + 1 ≥ grid.length then 0 else cur + 1

end MetronomeEngine

/-- State read and written by the speed-trainer useEffect and togglePlay in
src/components/Metronome.tsx (lines 193-207 and 252-261): the
`prevStepRef` ref, the last reported step index, the play flag, the
trainer settings and the BPM. -/
structure TrainerState where
  prevStep : ℤ
  currentStepIndex : ℤ
  isPlaying : Bool
  enabled : Bool
  barCount : ℕ
  increment : ℕ
  currentBarTracker : ℕ
  bpm : ℕ
deriving DecidableEq

/-- Body of the speed-trainer useEffect (src/components/Metronome.tsx lines
193-207), run when the step index is updated to `s`: remember whether the
previous step was 0, store `s` in the ref, and return unless this is an
actual transition to step 0 while playing with the trainer enabled; then
either increment the bar tracker or, once it would exceed `barCount`, bump
the BPM (clamped to 300) and reset the tracker to 1. -/
def trainerOnStep (st : TrainerState) (s : ℤ) : TrainerState :=
  let wasZero := st.prevStep = 0
  let st1 := { st with prevStep := s, currentStepIndex := s }
  if wasZero ∨ s ≠ 0 then st1
  else if st1.isPlaying = false ∨ st1.enabled = false then st1
  else if st1.currentBarTracker + 1 > st1.barCount then
    { st1 with
      bpm := min 300 (st1.bpm + st1.increment),
      currentBarTracker := 1 }
  else
    { st1 with currentBarTracker := st1.currentBarTracker + 1 }

/-- togglePlay when starting (src/components/Metronome.tsx lines 252-261):
the bar tracker is reset to 0, the step index is reset to -1 (which runs
the trainer effect with `s = -1`), and playback begins. -/
def startPlay (st : TrainerState) : TrainerState :=
  trainerOnStep { st with currentBarTracker := 0, isPlaying := true } (-1)

/-- togglePlay when stopping: the step index is reset to -1 and
`prevStepRef.current` is set to -1. -/
def stopPlay (st : TrainerState) : TrainerState :=
  { (trainerOnStep { st with isPlaying := false } (-1)) with prevStep := -1 }

/-- Initial state of the scenario in the spec: speed trainer enabled with
barCount = 4, increment = 5, starting BPM = 100, not yet playing. -/
def trainerDemoStart : TrainerState :=
  { prevStep := -1, currentStepIndex := -1, isPlaying := false, enabled := true,
    barCount := 4, increment := 5, currentBarTracker := 0, bpm := 100 }

/-- Step-index callbacks for four full bars of a four-step grid. -/
def fourBarSteps : List ℤ :=
  [0, 1, 2, 3, 0, 1, 2, 3, 0, 1, 2, 3, 0, 1, 2, 3]

/-- Trainer state after starting playback and playing four full bars
(three wraps back to step 0 have occurred; the fourth wrap is the next
transition to step 0). -/
def trainerAfterFourBars : TrainerState :=
  fourBarSteps.foldl trainerOnStep (startPlay trainerDemoStart)

/-- Sum of squares of the buffer divided by its length; `rms < 0.01` in the
source (src/utils/audioEngine.ts lines 51-58) is equivalent to
`rmsSq < 0.0001` because both sides are nonnegative. -/
def rmsSq (buf : List ℚ) : ℚ :=
  (buf.foldl (fun acc v => acc + v * v) 0) / (buf.length : ℚ)

/-- Normalized correlation at a candidate lag (src/utils/audioEngine.ts
lines 63-68): one minus the mean absolute difference between the buffer
and its copy shifted by `off`, averaged over `ms = MAX_SAMPLES` points.
Out-of-range reads return 0, matching the zero-filled Float32Array; the
loop's index range keeps all reads in bounds. -/
def corrAt (buf : List ℚ) (ms off : ℕ) : ℚ :=
  1 - ((List.range ms).foldl (fun acc i => acc + |buf.getD i 0 - buf.getD (i + off) 0|) 0) /
    (ms : ℚ)

/-- Candidate lags of the source loop `for (offset = 2; offset < MAX_SAMPLES - 1; offset++)`. -/
def candidateOffsets (ms : ℕ) : List ℕ := List.range' 2 (ms - 3)

/-- Mutable state of the autoCorrelate loop (src/utils/audioEngine.ts
lines 45-49, 60): best offset (-1 when none), best correlation, the
found-good flag, the previous lag's correlation, and the correlations
array (zero-initialized Float32Array of length MAX_SAMPLES). -/
structure ACState where
  bestOffset : ℤ
  bestCorrelation : ℚ
  foundGoodCorrelation : Bool
  lastCorrelation : ℚ
  correlations : List ℚ
deriving DecidableEq

/-- The autoCorrelate main loop (src/utils/audioEngine.ts lines 62-84) over
the remaining candidate offsets.  `Sum.inl` is an early return from inside
the loop (the hill-climb descent with parabolic interpolation, including
the near-zero-denominator guard and the JS `bestOffset || 1` fallback);
`Sum.inr` is normal loop exit with the final state. -/
def acLoop (buf : List ℚ) (ms : ℕ) (sampleRate : ℚ) : List ℕ → ACState → ℚ ⊕ ACState
  | [], st => Sum.inr st
  | offset :: rest, st =>
    let correlation := corrAt buf ms offset
    let cs := st.correlations.set offset correlation
    if correlation > 9/10 ∧ correlation > st.lastCorrelation then
      let st1 :=
        if correlation > st.bestCorrelation then
          { st with
            correlations := cs,
            foundGoodCorrelation := true,
            bestCorrelation := correlation,
            bestOffset := (offset : ℤ),
            lastCorrelation := correlation }
        else
          { st with
            correlations := cs,
            foundGoodCorrelation := true,
            lastCorrelation := correlation }
      acLoop buf ms sampleRate rest st1
    else if st.foundGoodCorrelation = true then
      let bo := st.bestOffset.toNat
      let denom := 2 * cs.getD bo 0 - cs.getD (bo + 1) 0 - cs.getD (bo - 1) 0
      if |denom| < 1/10000 then
        Sum.inl (sampleRate / (if st.bestOffset = 0 then 1 else (st.bestOffset : ℚ)))
      else
        Sum.inl (sampleRate / ((st.bestOffset : ℚ) +
          (cs.getD (bo + 1) 0 - cs.getD (bo - 1) 0) / (2 * denom)))
    else
      acLoop buf ms sampleRate rest { st with correlations := cs, lastCorrelation := correlation }

/-- Initial loop state (src/utils/audioEngine.ts lines 45-49, 60). -/
def initACState (ms : ℕ) : ACState :=
  { bestOffset := -1, bestCorrelation := 0, foundGoodCorrelation := false,
    lastCorrelation := 1, correlations := List.replicate ms 0 }

/-- autoCorrelate from src/utils/audioEngine.ts lines 42-89: silence gate on
the RMS, the candidate-lag loop, and the final fallback
`bestCorrelation > 0.01 && bestOffset > 0`. -/
def autoCorrelate (buf : List ℚ) (sampleRate : ℚ) : ℚ :=
  let MAX_SAMPLES := buf.length / 2
  if rmsSq buf < 1/10000 then -1
  else
    match acLoop buf MAX_SAMPLES sampleRate (candidateOffsets MAX_SAMPLES)
        (initACState MAX_SAMPLES) with
    | Sum.inl r => r
    | Sum.inr st =>
      if st.bestCorrelation > 1/100 ∧ st.bestOffset > 0 then sampleRate / (st.bestOffset : ℚ)
      else -1

/-- Buffer witnessing the behaviour of autoCorrelate when no candidate lag
exceeds the correlation threshold: RMS well above the noise floor, single
candidate lag 2 with correlation 1/2. -/
def cexBuf : List ℚ := [1, 0, 0, 0, 1, 0, 0, 0]

/-- A voice entry of PolySynth.activeNotes (src/utils/audioEngine.ts line
218); the oscillator/gain node handles are represented by the commands the
synth sends to the audio graph, so only the `isStopped` flag remains. -/
structure Voice where
  isStopped : Bool
deriving DecidableEq

/-- Commands PolySynth issues to the audio layer: a gain fade with a time
constant, a deferred oscillator stop, and an oscillator start for a pitch. -/
inductive AudioCmd where
  | fadeGain (timeConst : ℚ)
  | stopOsc (delay : ℚ)
  | startOsc (midi : ℕ)
deriving DecidableEq

/-- JS `Map.set` on an association list with unique keys: replace the value
in place when the key is present, append otherwise. -/
def mapSet (st : List (ℕ × Voice)) (k : ℕ) (v : Voice) : List (ℕ × Voice) :=
  if (List.lookup k st).isSome then st.map fun e => if e.1 = k then (k, v) else e
  else st ++ [(k, v)]

namespace PolySynth

/-- PolySynth.stop (src/utils/audioEngine.ts lines 282-302): return
unchanged when no voice for the pitch exists or it is already stopped;
otherwise mark it stopped, fade the gain (time constant 0.01 when
immediate, else 0.05), stop the oscillator after 0.05 s (immediate) or
0.3 s, and delete the entry (JS `Map.delete`, here a key filter).  The
marked voice is deleted in the same call, so the marking never survives
in the map. -/
def stop (st : List (ℕ × Voice)) (midi : ℕ) (immediate : Bool) :
    List (ℕ × Voice) × List AudioCmd :=
  match List.lookup midi st with
  | none => (st, [])
  | some active =>
    if active.isStopped then (st, [])
    else
      (st.filter fun e => e.1 != midi,
       [AudioCmd.fadeGain (if immediate then 1/100 else 1/20),
        AudioCmd.stopOsc (if immediate then 1/20 else 3/10)])

/-- PolySynth.play (src/utils/audioEngine.ts lines 234-280): force-stop an
existing voice for the pitch, then create a fresh voice with
`isStopped = false` and store it under the pitch. -/
def play (st : List (ℕ × Voice)) (midi : ℕ) :
    List (ℕ × Voice) × List AudioCmd :=
  let s1 := if (List.lookup midi st).isSome then stop st midi true else (st, [])
  (mapSet s1.1 midi { isStopped := false }, s1.2 ++ [AudioCmd.startOsc midi])

/-- PolySynth.stopAll (src/utils/audioEngine.ts lines 304-307): stop every
active pitch, then clear the map. -/
def stopAll (st : List (ℕ × Voice)) : List (ℕ × Voice) × List AudioCmd :=
  let folded := (st.map Prod.fst).foldl
    (fun acc m => ((stop acc.1 m true).1, acc.2 ++ (stop acc.1 m true).2)) (st, [])
  ([], folded.2)

end PolySynth

/-- Public operations of the polyphonic synth, for stating invariants over
arbitrary call sequences. -/
inductive SynthOp where
  | play (midi : ℕ)
  | stop (midi : ℕ) (immediate : Bool)
  | stopAll
deriving DecidableEq

/-- Effect of one synth operation on the active-voice map. -/
def applyOp (st : List (ℕ × Voice)) : SynthOp → List (ℕ × Voice)
  | SynthOp.play m => (PolySynth.play st m).1
  | SynthOp.stop m i => (PolySynth.stop st m i).1
  | SynthOp.stopAll => (PolySynth.stopAll st).1

/-- Active-voice map after running a sequence of operations from the empty
map a fresh PolySynth starts with. -/
def runOps (ops : List SynthOp) : List (ℕ × Voice) := ops.foldl applyOp []

/-- Invariant of the active-voice map: one voice per pitch and no stopped
voice is retained. -/
def VoiceInv (st : List (ℕ × Voice)) : Prop :=
  (st.map Prod.fst).Nodup ∧ ∀ e ∈ st, e.2.isStopped = false

/-- A JavaScript number as consumed by getNoteFromFrequency: NaN, the two
infinities (all with `Number.isFinite` false), or a finite value modelled
as a real. -/
inductive JSNumber where
  | nan : JSNumber
  | posInf : JSNumber
  | negInf : JSNumber
  | fin : ℝ → JSNumber

/-- `Number.isFinite`. -/
def JSNumber.isFinite : JSNumber → Bool
  | JSNumber.fin _ => true
  | _ => false

/-- TunerData from src/types.ts; `note` is an Option because the source
reads `NOTE_STRINGS[noteIndex]`, which is `undefined` when the index is
out of bounds. -/
structure TunerData where
  note : Option NoteName
  octave : ℤ
  cents : ℤ
  frequency : ℝ
  isSilent : Bool

/-- NOTE_STRINGS from src/utils/audioEngine.ts lines 16-20. -/
def NOTE_STRINGS : List NoteName :=
  [NoteName.C, NoteName.CSharp, NoteName.D, NoteName.DSharp, NoteName.E,
   NoteName.F, NoteName.FSharp, NoteName.G, NoteName.GSharp, NoteName.A,
   NoteName.ASharp, NoteName.B]

/-- JS array indexing with an integer index: `undefined` (none) when
negative or past the end. -/
def jsIndex (l : List NoteName) (i : ℤ) : Option NoteName :=
  if i < 0 then none else l.get? i.toNat

/-- Fractional MIDI number of a frequency (src/utils/audioEngine.ts line
26): `12 * (Math.log(f / 440) / Math.log(2)) + 69`. -/
noncomputable def noteNumOf (f : ℝ) : ℝ :=
  12 * (Real.log (f / 440) / Real.log 2) + 69

/-- `Math.round(noteNum)` (line 27); JS rounds half toward positive infinity. -/
noncomputable def midiOf (f : ℝ) : ℤ := ⌊noteNumOf f + 1/2⌋

/-- `Math.floor((noteNum - midi) * 100)` (line 28). -/
noncomputable def centsOf (f : ℝ) : ℤ := ⌊(noteNumOf f - midiOf f) * 100⌋

/-- `((midi % 12) + 12) % 12` (line 30) with JS truncated remainder. -/
noncomputable def noteIndexOf (f : ℝ) : ℤ := ((midiOf f).tmod 12 + 12).tmod 12

/-- `Math.floor(midi / 12) - 1` (line 31); the JS division is exact float
division, floored. -/
noncomputable def octaveOf (f : ℝ) : ℤ := ⌊(midiOf f : ℝ) / 12⌋ - 1

/-- Default TunerData returned for non-finite or non-positive input
(src/utils/audioEngine.ts line 24). -/
def defaultTuner : TunerData :=
  { note := some NoteName.A, octave := 4, cents := 0, frequency := 440, isSilent := true }

/-- getNoteFromFrequency from src/utils/audioEngine.ts lines 22-40. -/
noncomputable def getNoteFromFrequency : JSNumber → TunerData
  | JSNumber.fin x =>
    if x ≤ 0 then defaultTuner
    else
      { note := jsIndex NOTE_STRINGS (noteIndexOf x),
        octave := octaveOf x,
        cents := centsOf x,
        frequency := x,
        isSilent := false }
  | _ => defaultTuner

/-- MIDI-to-frequency conversion used by PolySynth.play
(src/utils/audioEngine.ts line 244): `440 * Math.pow(2, (midi - 69) / 12)`. -/
noncomputable def midiToFrequency (midi : ℤ) : ℝ :=
  440 * (2 : ℝ) ^ (((midi : ℝ) - 69) / 12)

/- ===================== helper lemmas ===================== -/

/-- JS truncated remainder by 12 is bounded below by -12. -/
theorem tmod_twelve_lower (z : ℤ) : -12 < z.tmod 12 := by
  cases z with
  | ofNat m =>
      have : 0 ≤ (Int.ofNat m).tmod 12 := Int.tmod_nonneg _ (Int.ofNat_nonneg m)
      omega
  | negSucc m =>
      show -12 < -(((m + 1) % 12 : ℕ) : ℤ)
      have : (m + 1) % 12 < 12 := Nat.mod_lt _ (by norm_num)
      omega

/-- The JS idiom `((z % 12) + 12) % 12` is the Euclidean remainder by 12. -/
theorem jsmod_twelve (z : ℤ) : (z.tmod 12 + 12).tmod 12 = z % 12 := by
  have hd : z.tmod 12 = z - 12 * z.tdiv 12 := Int.tmod_def z 12
  have hlb : -12 < z.tmod 12 := tmod_twelve_lower z
  rw [Int.tmod_eq_emod (by omega) (by norm_num)]
  omega

/-- The note index computed by getNoteFromFrequency lies in [0, 12). -/
theorem noteIndexOf_bounds (x : ℝ) : 0 ≤ noteIndexOf x ∧ noteIndexOf x < 12 := by
  unfold noteIndexOf
  rw [jsmod_twelve]
  exact ⟨Int.emod_nonneg _ (by norm_num), Int.emod_lt_of_pos _ (by norm_num)⟩

/-- The frequency of any MIDI pitch is positive. -/
theorem midiToFrequency_pos (m : ℤ) : 0 < midiToFrequency m := by
  unfold midiToFrequency
  positivity

/-- The fractional MIDI number of the frequency of MIDI pitch `m` is `m`. -/
theorem noteNumOf_midiToFrequency (m : ℤ) : noteNumOf (midiToFrequency m) = (m : ℝ) := by
  unfold noteNumOf midiToFrequency
  rw [mul_div_cancel_left₀ _ (by norm_num : (440:ℝ) ≠ 0)]
  rw [Real.log_rpow (by norm_num : (0:ℝ) < 2)]
  have h2 : Real.log 2 ≠ 0 :=
    Real.log_ne_zero_of_pos_of_ne_one (by norm_num) (by norm_num)
  field_simp
  ring

/-- Rounding recovers the MIDI pitch from its frequency. -/
theorem midiOf_midiToFrequency (m : ℤ) : midiOf (midiToFrequency m) = m := by
  unfold midiOf
  rw [noteNumOf_midiToFrequency, Int.floor_int_add]
  have : ⌊(1:ℝ)/2⌋ = 0 := by
    rw [Int.floor_eq_zero_iff]
    constructor <;> norm_num
  omega

/-- The cents offset of the frequency of a MIDI pitch is exactly 0. -/
theorem centsOf_midiToFrequency (m : ℤ) : centsOf (midiToFrequency m) = 0 := by
  unfold centsOf
  rw [noteNumOf_midiToFrequency, midiOf_midiToFrequency]
  simp

/-- Floor of a natural number divided by 12 over the reals is Nat division. -/
theorem floor_natCast_div_twelve (m : ℕ) : ⌊(m : ℝ) / 12⌋ = ((m / 12 : ℕ) : ℤ) := by
  rw [Int.floor_eq_iff]
  constructor
  · rw [le_div_iff₀ (by norm_num : (0:ℝ) < 12)]
    exact_mod_cast Nat.div_mul_le_self m 12
  · rw [div_lt_iff₀ (by norm_num : (0:ℝ) < 12)]
    have h : m < (m / 12 + 1) * 12 := by omega
    push_cast
    exact_mod_cast h

/-- Running the loop over offsets none of which correlates above 0.9 never
sets the found-good flag and never moves the best offset. -/
theorem acLoop_all_low (buf : List ℚ) (ms : ℕ) (sr : ℚ) :
    ∀ (offs : List ℕ) (st : ACState),
      (∀ off ∈ offs, corrAt buf ms off ≤ 9/10) →
      st.foundGoodCorrelation = false →
      ∃ st2, acLoop buf ms sr offs st = Sum.inr st2 ∧
        st2.foundGoodCorrelation = false ∧ st2.bestOffset = st.bestOffset := by
  intro offs
  induction offs with
  | nil => intro st _ hfg; exact ⟨st, rfl, hfg, rfl⟩
  | cons off rest ih =>
    intro st h hfg
    have hle : corrAt buf ms off ≤ 9/10 := h off (by simp)
    have hcond : ¬ (corrAt buf ms off > 9/10 ∧ corrAt buf ms off > st.lastCorrelation) := by
      rintro ⟨h1, _⟩; exact absurd h1 (not_lt.mpr hle)
    rw [acLoop]
    simp only [if_neg hcond, hfg, Bool.false_eq_true, if_false]
    exact ih _ (fun o ho => h o (by simp [ho])) rfl

/-- Summing squares over an all-zero buffer leaves the accumulator unchanged. -/
theorem foldl_sq_replicate_zero (n : ℕ) :
    ∀ q : ℚ, List.foldl (fun acc v => acc + v * v) q (List.replicate n 0) = q := by
  induction n with
  | zero => intro q; rfl
  | succ k ih =>
    intro q
    rw [List.replicate_succ, List.foldl_cons]
    rw [show q + (0:ℚ) * 0 = q by ring]
    exact ih q

/-- The squared-RMS of an all-zero buffer is 0. -/
theorem rmsSq_replicate_zero (n : ℕ) : rmsSq (List.replicate n 0) = 0 := by
  unfold rmsSq
  rw [foldl_sq_replicate_zero n 0]
  exact zero_div _

/-- Looking a key up after filtering it out fails. -/
theorem lookup_filter_ne (st : List (ℕ × Voice)) (m : ℕ) :
    List.lookup m (st.filter fun e => e.1 != m) = none := by
  induction st with
  | nil => rfl
  | cons e rest ih =>
    by_cases h : e.1 = m
    · simp [List.filter, h, ih]
    · simp only [List.filter]
      rw [show (e.1 != m) = true by simp [h]]
      simp only [List.lookup]
      rw [show (m == e.1) = false by simp [Ne.symm h]]
      exact ih

/-- A key that fails to look up is not among the stored keys. -/
theorem lookup_none_not_mem_keys {st : List (ℕ × Voice)} {k : ℕ}
    (h : List.lookup k st = none) : k ∉ st.map Prod.fst := by
  induction st with
  | nil => simp
  | cons e rest ih =>
    simp only [List.lookup] at h
    by_cases he : k = e.1
    · rw [show (k == e.1) = true by simp [he]] at h
      exact absurd h (by simp)
    · rw [show (k == e.1) = false by simp [he]] at h
      simp only [List.map, List.mem_cons]
      rintro (h1 | h2)
      · exact he h1
      · exact ih h h2

/-- The empty voice map satisfies the invariant. -/
theorem voiceInv_nil : VoiceInv [] := ⟨List.nodup_nil, by simp⟩

/-- PolySynth.stop preserves the voice-map invariant. -/
theorem voiceInv_stop (st : List (ℕ × Voice)) (m : ℕ) (i : Bool) (h : VoiceInv st) :
    VoiceInv (PolySynth.stop st m i).1 := by
  unfold PolySynth.stop
  match hl : List.lookup m st with
  | none => exact h
  | some active =>
    by_cases hs : active.isStopped
    · simp only [hs, if_true]
      exact h
    · simp only [hs, if_false, Bool.false_eq_true]
      constructor
      · exact h.1.sublist ((List.filter_sublist st).map Prod.fst)
      · intro e he
        exact h.2 e (List.mem_of_mem_filter he)

/-- Replacing the value of a present key leaves the key list unchanged. -/
theorem mapSet_keys_of_some (st : List (ℕ × Voice)) (k : ℕ) (v : Voice)
    (h : (List.lookup k st).isSome) :
    (mapSet st k v).map Prod.fst = st.map Prod.fst := by
  unfold mapSet
  rw [if_pos h, List.map_map]
  apply List.map_congr_left
  intro e _
  by_cases he : e.1 = k
  · simp [he]
  · simp [he]

/-- Storing a fresh unstopped voice preserves the voice-map invariant. -/
theorem voiceInv_mapSet (st : List (ℕ × Voice)) (k : ℕ) (h : VoiceInv st) :
    VoiceInv (mapSet st k { isStopped := false }) := by
  by_cases hl : (List.lookup k st).isSome
  · constructor
    · rw [mapSet_keys_of_some st k _ hl]
      exact h.1
    · unfold mapSet
      rw [if_pos hl]
      intro e he
      rw [List.mem_map] at he
      obtain ⟨a, ha, hae⟩ := he
      by_cases hak : a.1 = k
      · rw [if_pos hak] at hae
        rw [← hae]
      · rw [if_neg hak] at hae
        rw [← hae]
        exact h.2 a ha
  · unfold mapSet
    rw [if_neg hl]
    constructor
    · rw [List.map_append, List.nodup_append]
      refine ⟨h.1, by simp, ?_⟩
      intro x hx
      simp only [List.map_cons, List.map_nil, List.mem_singleton]
      intro hxk
      rw [hxk] at hx
      exact absurd hx (lookup_none_not_mem_keys (Option.not_isSome_iff_eq_none.mp hl))
    · intro e he
      rw [List.mem_append] at he
      rcases he with h1 | h2
      · exact h.2 e h1
      · simp at h2
        rw [h2]

/-- PolySynth.play preserves the voice-map invariant. -/
theorem voiceInv_play (st : List (ℕ × Voice)) (m : ℕ) (h : VoiceInv st) :
    VoiceInv (PolySynth.play st m).1 := by
  unfold PolySynth.play
  by_cases hl : (List.lookup m st).isSome
  · simp only [hl, if_true]
    exact voiceInv_mapSet _ m (voiceInv_stop st m true h)
  · simp only [hl, if_false, Bool.false_eq_true]
    exact voiceInv_mapSet _ m h

/-- Every synth operation preserves the voice-map invariant. -/
theorem voiceInv_applyOp (st : List (ℕ × Voice)) (op : SynthOp) (h : VoiceInv st) :
    VoiceInv (applyOp st op) := by
  cases op with
  | play m => exact voiceInv_play st m h
  | stop m i => exact voiceInv_stop st m i h
  | stopAll => exact voiceInv_nil

/-- Folding any operation sequence preserves the voice-map invariant. -/
theorem voiceInv_foldl (ops : List SynthOp) :
    ∀ st : List (ℕ × Voice), VoiceInv st → VoiceInv (ops.foldl applyOp st) := by
  induction ops with
  | nil => intro st h; exact h
  | cons op rest ih =>
    intro st h
    exact ih _ (voiceInv_applyOp st op h)

/- ===================== claim theorems ===================== -/

/-- C1, counterexample: for a = 3, b = 4 the grid has 3 indices tagged
POLY_A-or-BOTH and 4 tagged POLY_B-or-BOTH, not lcm/a = 4 and lcm/b = 3 as
the claim's counting clause states. -/
theorem c1_counterexample :
    countAOrBoth (polyGrid 3 4) = 3 ∧ lcm 3 4 / 3 = 4 ∧
    countAOrBoth (polyGrid 3 4) ≠ lcm 3 4 / 3 ∧
    countBOrBoth (polyGrid 3 4) = 4 ∧ lcm 3 4 / 4 = 3 ∧
    countBOrBoth (polyGrid 3 4) ≠ lcm 3 4 / 4 := by decide

/-- C1 (amended): for positive a, b ≤ 12 the polyrhythm grid has length
lcm(a,b), index i is classified exactly as the spec's POLY_BOTH / POLY_A /
POLY_B / MUTE rule states, and exactly a indices are tagged
POLY_A-or-BOTH and exactly b indices POLY_B-or-BOTH (the claim's counts
lcm(a,b)/a and lcm(a,b)/b are the spacings of those tags, not their
numbers). -/
theorem c1_amended :
    ∀ a : ℕ, a < 13 → ∀ b : ℕ, b < 13 → 1 ≤ a → 1 ≤ b →
      (polyGrid a b).length = lcm a b ∧
      polyGrid a b = (List.range (lcm a b)).map (specPolyClassify a b) ∧
      countAOrBoth (polyGrid a b) = a ∧
      countBOrBoth (polyGrid a b) = b := by
  have hlen : ∀ a : ℕ, a < 13 → ∀ b : ℕ, b < 13 → 1 ≤ a → 1 ≤ b →
      (polyGrid a b).length = lcm a b := by decide
  have hcls : ∀ a : ℕ, a < 13 → ∀ b : ℕ, b < 13 → 1 ≤ a → 1 ≤ b →
      polyGrid a b = (List.range (lcm a b)).map (specPolyClassify a b) := by decide
  have hca : ∀ a : ℕ, a < 13 → ∀ b : ℕ, b < 13 → 1 ≤ a → 1 ≤ b →
      countAOrBoth (polyGrid a b) = a := by decide
  have hcb : ∀ a : ℕ, a < 13 → ∀ b : ℕ, b < 13 → 1 ≤ a → 1 ≤ b →
      countBOrBoth (polyGrid a b) = b := by decide
  intro a ha b hb h1 h2
  exact ⟨hlen a ha b hb h1 h2, hcls a ha b hb h1 h2,
    hca a ha b hb h1 h2, hcb a ha b hb h1 h2⟩

/-- C1, witness of the amended theorem at a = 3, b = 4. -/
theorem c1_amended_witness :
    (polyGrid 3 4).length = lcm 3 4 ∧
    polyGrid 3 4 = (List.range (lcm 3 4)).map (specPolyClassify 3 4) ∧
    countAOrBoth (polyGrid 3 4) = 3 ∧
    countBOrBoth (polyGrid 3 4) = 4 :=
  c1_amended 3 (by norm_num) 4 (by norm_num) (by norm_num) (by norm_num)

/-- C2, counterexample: on cexBuf (RMS ≥ floor) the only candidate lag is 2
with correlation 1/2, which never exceeds 0.9 but does exceed the 0.01
floor; the claim then demands the fallback sampleRate / 2, yet
autoCorrelate returns -1 (bestOffset is only tracked above the 0.9
threshold, so the final fallback cannot fire). -/
theorem c2_counterexample :
    ¬ (rmsSq cexBuf < 1/10000) ∧
    candidateOffsets (cexBuf.length / 2) = [2] ∧
    corrAt cexBuf (cexBuf.length / 2) 2 = 1/2 ∧
    ¬ ((1:ℚ)/2 > 9/10) ∧
    (1:ℚ)/2 > 1/100 ∧
    autoCorrelate cexBuf 44100 = -1 ∧
    (44100 : ℚ) / 2 ≠ -1 := by
  refine ⟨by norm_num [rmsSq, cexBuf], rfl, ?_, by norm_num, by norm_num, ?_, by norm_num⟩
  · norm_num [corrAt, cexBuf, List.range_succ]
  · norm_num [autoCorrelate, rmsSq, cexBuf, candidateOffsets, acLoop, corrAt,
      List.range_succ, List.range', initACState]

/-- C2 (amended): for every input buffer, if no candidate lag's correlation
exceeds the 0.9 threshold then autoCorrelate returns the no-pitch sentinel
-1 unconditionally — the highest-correlation fallback never applies in
that case, because the best offset is tracked only for correlations above
the threshold. -/
theorem c2_amended (buf : List ℚ) (sampleRate : ℚ)
    (h : ∀ off ∈ candidateOffsets (buf.length / 2),
      corrAt buf (buf.length / 2) off ≤ 9/10) :
    autoCorrelate buf sampleRate = -1 := by
  unfold autoCorrelate
  by_cases hg : rmsSq buf < 1/10000
  · rw [if_pos hg]
  · rw [if_neg hg]
    obtain ⟨st2, heq, hfg, hbo⟩ :=
      acLoop_all_low buf (buf.length / 2) sampleRate (candidateOffsets (buf.length / 2))
        (initACState (buf.length / 2)) h rfl
    rw [heq]
    have hno : ¬ (st2.bestCorrelation > 1/100 ∧ st2.bestOffset > 0) := by
      rintro ⟨_, hgt⟩
      rw [hbo] at hgt
      exact absurd hgt (by norm_num [initACState])
    simp only [if_neg hno]

/-- C2, witness of the amended theorem on cexBuf. -/
theorem c2_amended_witness : autoCorrelate cexBuf 44100 = -1 := by
  apply c2_amended
  intro off hoff
  have he : candidateOffsets (cexBuf.length / 2) = [2] := rfl
  rw [he] at hoff
  simp only [List.mem_singleton] at hoff
  subst hoff
  norm_num [corrAt, cexBuf, List.range_succ]

/-- C3, counterexample: scheduling step 0 against the empty grid while
playing instructs the default 800 Hz tone, not nothing — the undefined
intensity read from an empty grid is not strictly equal to MUTE, so the
early return does not fire and the switch's default branch runs. -/
theorem c3_counterexample :
    (MetronomeEngine.scheduleNoteTones [] 0 true).1 = [800] ∧
    (MetronomeEngine.scheduleNoteTones [] 0 true).1 ≠ [] := by
  constructor
  · rfl
  · decide

/-- C3 (amended): against an empty grid every step processed while playing
instructs exactly the default 800 Hz tone at gain 0.4 (the step interval
affects only timing, not which tone sounds); no tone is instructed only
when the engine is stopped; the step index stays at 0.  Moreover the
component clamps polyrhythm inputs with max(1, ·), so stepsA = 0 or
stepsB = 0 yields the non-empty grid of the clamped values, never an
empty grid. -/
theorem c3_amended :
    (∀ step : ℕ, MetronomeEngine.scheduleNoteTones [] step true = ([800], 2/5)) ∧
    (∀ step : ℕ, MetronomeEngine.scheduleNoteTones [] step false = ([], 0)) ∧
    (∀ cur : ℕ, MetronomeEngine.nextStepIndex [] cur = 0) ∧
    (polyGrid 0 4).length = 4 ∧
    (∀ a b : ℕ, (polyGrid a b).length = lcm (max 1 a) (max 1 b)) := by
  refine ⟨?_, ?_, ?_, by decide, ?_⟩
  · intro step
    simp [MetronomeEngine.scheduleNoteTones]
  · intro step
    simp [MetronomeEngine.scheduleNoteTones]
  · intro cur
    simp [MetronomeEngine.nextStepIndex]
  · intro a b
    simp [polyGrid]

/-- C4: for every MIDI pitch m in 0-127, converting m to a frequency via
440·2^((m-69)/12) and back through getNoteFromFrequency recovers the note
table entry at m mod 12 and octave floor(m/12) - 1, with a cents offset of
exactly 0. -/
theorem c4_round_trip (m : ℕ) (_hm : m ≤ 127) :
    getNoteFromFrequency (JSNumber.fin (midiToFrequency (m : ℤ))) =
      { note := NOTE_STRINGS.get? (m % 12),
        octave := ((m / 12 : ℕ) : ℤ) - 1,
        cents := 0,
        frequency := midiToFrequency (m : ℤ),
        isSilent := false } := by
  simp only [getNoteFromFrequency]
  rw [if_neg (not_le.mpr (midiToFrequency_pos (m : ℤ)))]
  have hmid := midiOf_midiToFrequency (m : ℤ)
  have hnote : jsIndex NOTE_STRINGS (noteIndexOf (midiToFrequency (m : ℤ))) =
      NOTE_STRINGS.get? (m % 12) := by
    unfold noteIndexOf jsIndex
    rw [hmid, jsmod_twelve]
    have h1 : ((m : ℤ) % 12) = ((m % 12 : ℕ) : ℤ) := by
      push_cast
      ring
    rw [h1, if_neg (not_lt.mpr (by positivity)), Int.toNat_natCast]
  have hoct : octaveOf (midiToFrequency (m : ℤ)) = ((m / 12 : ℕ) : ℤ) - 1 := by
    unfold octaveOf
    rw [hmid]
    rw [show ((m : ℤ) : ℝ) = (m : ℝ) by push_cast; ring]
    rw [floor_natCast_div_twelve]
  rw [hnote, hoct, centsOf_midiToFrequency]

/-- C4, witness at m = 69 (A4, 440 Hz). -/
theorem c4_round_trip_witness :
    (69 : ℕ) ≤ 127 ∧
    getNoteFromFrequency (JSNumber.fin (midiToFrequency ((69 : ℕ) : ℤ))) =
      { note := NOTE_STRINGS.get? (69 % 12),
        octave := ((69 / 12 : ℕ) : ℤ) - 1,
        cents := 0,
        frequency := midiToFrequency ((69 : ℕ) : ℤ),
        isSilent := false } :=
  ⟨by norm_num, c4_round_trip 69 (by norm_num)⟩

/-- C5: with barCount 4, increment 5 and starting BPM 100, the BPM is still
100 after four full bars (three wraps to step 0); on the fourth wrap the
BPM becomes 105 and the bar tracker resets to 1; any step-index update
other than a transition to 0 (in particular the -1 reset performed by
togglePlay when starting or stopping) never changes BPM or tracker; and
the BPM after any transition never exceeds max(bpm, 300). -/
theorem c5_speed_trainer :
    (trainerAfterFourBars.bpm = 100 ∧ trainerAfterFourBars.currentBarTracker = 4 ∧
     (trainerOnStep trainerAfterFourBars 0).bpm = 105 ∧
     (trainerOnStep trainerAfterFourBars 0).currentBarTracker = 1) ∧
    (∀ (st : TrainerState) (s : ℤ), s ≠ 0 →
      (trainerOnStep st s).bpm = st.bpm ∧
      (trainerOnStep st s).currentBarTracker = st.currentBarTracker) ∧
    (∀ st : TrainerState, (startPlay st).bpm = st.bpm) ∧
    (∀ st : TrainerState, (stopPlay st).bpm = st.bpm) ∧
    (∀ (st : TrainerState) (s : ℤ), (trainerOnStep st s).bpm ≤ max st.bpm 300) := by
  refine ⟨by decide, ?_, ?_, ?_, ?_⟩
  · intro st s hs
    unfold trainerOnStep
    rw [if_pos (Or.inr hs)]
    exact ⟨rfl, rfl⟩
  · intro st
    unfold startPlay trainerOnStep
    rw [if_pos (Or.inr (by decide))]
  · intro st
    unfold stopPlay trainerOnStep
    rw [if_pos (Or.inr (by decide))]
  · intro st s
    simp only [trainerOnStep]
    split
    · exact le_max_left _ _
    · split
      · exact le_max_left _ _
      · split
        · exact le_trans (min_le_left _ _) (le_max_right _ _)
        · exact le_max_left _ _

/-- C5, witness: a step-index update to 5 (nonzero) leaves the BPM of the
scenario's initial state unchanged. -/
theorem c5_speed_trainer_witness :
    (5 : ℤ) ≠ 0 ∧ (trainerOnStep trainerDemoStart 5).bpm = trainerDemoStart.bpm :=
  ⟨by norm_num, (c5_speed_trainer.2.1 trainerDemoStart 5 (by norm_num)).1⟩

/-- C6: PolySynth.stop is idempotent on the active-voice map — after one
stop for a pitch, a second stop for the same pitch returns the state
unchanged and emits no audio commands; and a stop for an absent pitch is
a complete no-op. -/
theorem c6_stop_idempotent (st : List (ℕ × Voice)) (m : ℕ) (i1 i2 : Bool) :
    PolySynth.stop ((PolySynth.stop st m i1).1) m i2 = ((PolySynth.stop st m i1).1, []) ∧
    (List.lookup m st = none → PolySynth.stop st m i1 = (st, [])) := by
  constructor
  · unfold PolySynth.stop
    match hl : List.lookup m st with
    | none =>
      simp only []
      rw [hl]
    | some active =>
      by_cases hs : active.isStopped
      · simp only [hs, if_true]
        rw [hl]
        simp [hs]
      · simp only [hs, if_false, Bool.false_eq_true]
        rw [lookup_filter_ne]
  · intro h
    unfold PolySynth.stop
    rw [h]

/-- C6, witness: stopping pitch 61 in a map holding only pitch 60 is a
no-op. -/
theorem c6_stop_idempotent_witness :
    List.lookup 61 [((60 : ℕ), (⟨false⟩ : Voice))] = none ∧
    PolySynth.stop [((60 : ℕ), (⟨false⟩ : Voice))] 61 true =
      ([((60 : ℕ), (⟨false⟩ : Voice))], []) :=
  ⟨by decide, (c6_stop_idempotent [((60 : ℕ), (⟨false⟩ : Voice))] 61 true true).2 (by decide)⟩

/-- C7: every buffer whose squared RMS is below the squared 0.01 noise
floor — in particular every all-zero buffer — makes autoCorrelate return
the no-pitch sentinel -1 immediately, for every sampling rate. -/
theorem c7_silence_gate :
    (∀ (buf : List ℚ) (sampleRate : ℚ),
      rmsSq buf < 1/10000 → autoCorrelate buf sampleRate = -1) ∧
    (∀ (n : ℕ) (sampleRate : ℚ), autoCorrelate (List.replicate n 0) sampleRate = -1) := by
  constructor
  · intro buf sampleRate h
    unfold autoCorrelate
    rw [if_pos h]
  · intro n sampleRate
    unfold autoCorrelate
    rw [if_pos (by rw [rmsSq_replicate_zero]; norm_num)]

/-- C7, witness: a concrete quiet (all-zero) two-sample buffer. -/
theorem c7_silence_gate_witness :
    rmsSq [0, 0] < 1/10000 ∧ autoCorrelate [0, 0] 44100 = -1 :=
  ⟨by norm_num [rmsSq], c7_silence_gate.1 [0, 0] 44100 (by norm_num [rmsSq])⟩

/-- C8: every non-finite (NaN or infinite) or non-positive frequency makes
getNoteFromFrequency return the documented default triple (A, octave 4,
0 cents, silent), and every finite positive frequency takes the computing
branch (silent = false); the function is total, so it never fails. -/
theorem c8_invalid_input_default :
    (∀ f : JSNumber,
      (JSNumber.isFinite f = false ∨ ∃ x : ℝ, f = JSNumber.fin x ∧ x ≤ 0) →
      getNoteFromFrequency f = defaultTuner) ∧
    (∀ x : ℝ, 0 < x → (getNoteFromFrequency (JSNumber.fin x)).isSilent = false) := by
  constructor
  · intro f h
    cases f with
    | nan => rfl
    | posInf => rfl
    | negInf => rfl
    | fin x =>
      rcases h with h | ⟨y, hy, h0⟩
      · exact absurd h (by simp [JSNumber.isFinite])
      · injection hy with hxy
        subst hxy
        simp only [getNoteFromFrequency]
        rw [if_pos h0]
  · intro x hx
    simp only [getNoteFromFrequency]
    rw [if_neg (not_le.mpr hx)]

/-- C8, witness at the inputs NaN and -5. -/
theorem c8_invalid_input_default_witness :
    getNoteFromFrequency JSNumber.nan = defaultTuner ∧
    getNoteFromFrequency (JSNumber.fin (-5)) = defaultTuner :=
  ⟨c8_invalid_input_default.1 JSNumber.nan (Or.inl rfl),
   c8_invalid_input_default.1 (JSNumber.fin (-5))
     (Or.inr ⟨-5, rfl, by norm_num⟩)⟩

/-- C9: after any sequence of play / stop / stopAll operations from a fresh
synth, the active-voice map holds at most one voice per MIDI pitch, every
retained voice has its stopped flag false, and a trailing stopAll leaves
the map empty. -/
theorem c9_voice_map_invariant (ops : List SynthOp) :
    ((runOps ops).map Prod.fst).Nodup ∧
    ((runOps ops).all fun e => !e.2.isStopped) = true ∧
    runOps (ops ++ [SynthOp.stopAll]) = [] := by
  have h := voiceInv_foldl ops [] voiceInv_nil
  refine ⟨h.1, ?_, ?_⟩
  · rw [List.all_eq_true]
    intro e he
    rw [h.2 e he]
    rfl
  · unfold runOps
    rw [List.foldl_append]
    rfl

/-- C10: for every positive frequency, the cents value computed by
getNoteFromFrequency lies in [-50, 49], the note index lies in [0, 12), and
the lookup into the 12-entry note table succeeds, so the returned note
name is never undefined. -/
theorem c10_output_range (x : ℝ) (hx : 0 < x) :
    -50 ≤ centsOf x ∧ centsOf x ≤ 49 ∧
    0 ≤ noteIndexOf x ∧ noteIndexOf x < 12 ∧
    ((getNoteFromFrequency (JSNumber.fin x)).note).isSome = true := by
  have hcents : -50 ≤ centsOf x ∧ centsOf x ≤ 49 := by
    unfold centsOf midiOf
    set n := noteNumOf x with hn
    have h1 : (⌊n + 1/2⌋ : ℝ) ≤ n + 1/2 := Int.floor_le _
    have h2 : n + 1/2 < ⌊n + 1/2⌋ + 1 := Int.lt_floor_add_one _
    constructor
    · rw [Int.le_floor]
      push_cast
      nlinarith
    · have : ⌊(n - ↑⌊n + 1/2⌋) * 100⌋ < 50 := by
        rw [Int.floor_lt]
        push_cast
        nlinarith
      omega
  have hidx := noteIndexOf_bounds x
  refine ⟨hcents.1, hcents.2, hidx.1, hidx.2, ?_⟩
  simp only [getNoteFromFrequency]
  rw [if_neg (not_le.mpr hx)]
  show (jsIndex NOTE_STRINGS (noteIndexOf x)).isSome = true
  unfold jsIndex
  rw [if_neg (not_lt.mpr hidx.1)]
  have hlt : (noteIndexOf x).toNat < NOTE_STRINGS.length := by
    have h12 := hidx.2
    simp only [NOTE_STRINGS, List.length]
    omega
  rw [List.get?_eq_get hlt]
  rfl

/-- C10, witness at 440 Hz. -/
theorem c10_output_range_witness :
    (0 : ℝ) < 440 ∧
    (-50 ≤ centsOf 440 ∧ centsOf 440 ≤ 49 ∧
     0 ≤ noteIndexOf 440 ∧ noteIndexOf 440 < 12 ∧
     ((getNoteFromFrequency (JSNumber.fin 440)).note).isSome = true) :=
  ⟨by norm_num, c10_output_range 440 (by norm_num)⟩

end Earlessly
